import Mathlib

/-!
A shallow embedding of `classes/filters/filter.py` from the RedditDownloader
repository, together with a verification of its specified behavior.

Model choices, documented once here:

* Python values flowing through the filter code (record attributes and
  configuration limit values) are modelled by the inductive type `Value`
  (integers, strings, booleans and `None`).
* Python `float(...)` is modelled over this universe: numeric strings are
  parsed to exact rationals (optional sign, digits with an optional single
  decimal point, and the special forms inf/infinity/nan, case-insensitively).
  Scientific notation and digit underscores are outside the model.
  `int(...)` applied to a float truncates toward zero; it raises
  `ValueError` on nan and `OverflowError` on infinities, as Python does.
* Raised exceptions are modelled with `Except PyErr`; `PyErr.exception msg`
  models a plain `Exception(msg)`.
* `str.lower()` is modelled on ASCII letters by `pyLower`.
* `re.compile`/`re.search` under `re.IGNORECASE` are modelled by a small
  derivative-based regular-expression engine over the core syntax
  (literal characters, `.`, `*`, `+`, `?`, and backslash-escaped literal
  characters).  The grouping/class/anchor special characters are treated
  as compile errors by the model.
* Python objects are mutable; methods such as `_parse_str` that assign to
  `self` are modelled as functions returning the updated `Filter` record.
* The virtual method `_convert_imported_limit` (identity on the base class,
  overridable by plugins) is modelled by an explicit `conv` function
  parameter of `from_obj_conv`; the base-class `Filter.from_obj` fixes it
  to the identity.  `None` (`Value.vNone`) is the invalid-value sentinel.
* The dynamic module scan of `get_filters` is modelled by an explicit list
  of available plugin classes (`PluginClass`), each holding the `field`,
  `description` and conversion function its constructor would install.
  Python dicts iterate in insertion order, so the configuration dict is
  an association list.
-/

set_option maxRecDepth 8192

namespace RD

/-- Python values that flow through the filter code. -/
inductive Value where
  | vInt (n : Int)
  | vStr (s : String)
  | vBool (b : Bool)
  | vNone
deriving DecidableEq

/-- Python exceptions raised by the modelled code. -/
inductive PyErr where
  | exception (msg : String)
  | typeError
  | valueError
  | overflowError
  | reError
deriving DecidableEq

deriving instance DecidableEq for Except

/-- ASCII lower-casing of one character, as `str.lower()` does. -/
def pyLower (c : Char) : Char :=
  if 65 ≤ c.toNat ∧ c.toNat ≤ 90 then Char.ofNat (c.toNat + 32) else c

/-- ASCII lower-casing of a string, modelling `str.lower()`. -/
def lowerStr (s : String) : String := ⟨s.data.map pyLower⟩

/-- Python's substring test `p in s`. -/
def substrB (p s : String) : Bool := decide (p.data <:+: s.data)

/-- The `Operators` enum of `filter.py`, in declaration order. -/
inductive Operators where
  | EQUALS
  | MINIMUM
  | MAXIMUM
  | MATCH
deriving DecidableEq

/-- The `value` string of each `Operators` member. -/
def opToken : Operators → String
  | .EQUALS => ".equals"
  | .MINIMUM => ".min"
  | .MAXIMUM => ".max"
  | .MATCH => ".match"

deriving instance Fintype for Operators

/-- Iteration order of `for k in Operators` (enum declaration order). -/
def opList : List Operators := [.EQUALS, .MINIMUM, .MAXIMUM, .MATCH]

/-- Position of an operator in the declaration order. -/
def opIdx : Operators → Nat
  | .EQUALS => 0
  | .MINIMUM => 1
  | .MAXIMUM => 2
  | .MATCH => 3

/-- The result of Python `float(...)`: a finite value (exact rational in the
model), an infinity, or nan. -/
inductive PyFloat where
  | finite (q : Rat)
  | inf
  | neginf
  | nan
deriving DecidableEq

/-- Is this character an ASCII digit? -/
def isDigitB (c : Char) : Bool := 48 ≤ c.toNat && c.toNat ≤ 57

/-- Value of a digit string, most significant digit first. -/
def digitsVal (acc : Nat) : List Char → Nat
  | [] => acc
  | c :: cs => digitsVal (acc * 10 + (c.toNat - 48)) cs

/-- Parse an unsigned decimal numeral (digits with at most one decimal
point, at least one digit overall) to an exact rational. -/
def parseUnsigned (cs : List Char) : Option Rat :=
  let ip := cs.takeWhile isDigitB
  let rest := cs.dropWhile isDigitB
  match rest with
  | [] => if ip.isEmpty then none else some ((digitsVal 0 ip : Nat) : Rat)
  | '.' :: fr =>
    if fr.all isDigitB && (!ip.isEmpty || !fr.isEmpty) then
      some ((digitsVal 0 ip : Nat) + (digitsVal 0 fr : Nat) / ((10 : Rat) ^ fr.length))
    else none
  | _ => none

/-- Is this an ASCII whitespace character (as stripped by `float(str)`)? -/
def isSpaceB (c : Char) : Bool := (9 ≤ c.toNat && c.toNat ≤ 13) || c.toNat = 32

/-- Strip leading and trailing ASCII whitespace. -/
def pyStrip (cs : List Char) : List Char :=
  ((cs.dropWhile isSpaceB).reverse.dropWhile isSpaceB).reverse

/-- Python `float(s)` on a string: strip whitespace, optional sign, then a
decimal numeral or one of the special words inf/infinity/nan. -/
def parsePyFloat (s : String) : Except PyErr PyFloat :=
  let t := pyStrip s.data
  let sgn : Bool :=
    match t with
    | '-' :: _ => true
    | _ => false
  let body : List Char :=
    match t with
    | '-' :: r => r
    | '+' :: r => r
    | r => r
  let low := body.map pyLower
  if low = "inf".data ∨ low = "infinity".data then
    .ok (if sgn then .neginf else .inf)
  else if low = "nan".data then .ok .nan
  else
    match parseUnsigned body with
    | some q => .ok (.finite (if sgn then -q else q))
    | none => .error .valueError

/-- Python `float(v)` on the modelled value universe. -/
def pyFloatOf : Value → Except PyErr PyFloat
  | .vInt n => .ok (.finite (n : Rat))
  | .vBool b => .ok (.finite (if b then 1 else 0))
  | .vStr s => parsePyFloat s
  | .vNone => .error .typeError

/-- Truncation of a rational toward zero, as Python `int(float)` does. -/
def ratTrunc (q : Rat) : Int := q.num.tdiv (q.den : Int)

/-- Python `int(x)` on a float: truncate toward zero; `ValueError` on nan,
`OverflowError` on infinities. -/
def pyIntOfFloat : PyFloat → Except PyErr Int
  | .finite q => .ok (ratTrunc q)
  | .nan => .error .valueError
  | .inf => .error .overflowError
  | .neginf => .error .overflowError

/-- Python `str(v)` on the modelled value universe. -/
def pyStr : Value → String
  | .vInt n => toString n
  | .vStr s => s
  | .vBool b => if b then "True" else "False"
  | .vNone => "None"

/-- The result of `Filter._cast`: an integer or a string. -/
inductive CastResult where
  | cInt (n : Int)
  | cStr (s : String)
deriving DecidableEq

/-- View a cast result back as a plain Python value. -/
def CastResult.toValue : CastResult → Value
  | .cInt n => .vInt n
  | .cStr s => .vStr s

/-- Python `str(...)` of a cast result. -/
def castStr : CastResult → String
  | .cInt n => toString n
  | .cStr s => s

/-- Is this cast result a string? (`isinstance(x, str)`) -/
def CastResult.isStr : CastResult → Bool
  | .cStr _ => true
  | .cInt _ => false

/-- The `Filter` class state: `field`, `operator`, `_limit`, `description`
and `accepts_operator` as set by `__init__` and mutated by the methods. -/
structure Filter where
  field : String
  operator : Option Operators
  limit : Option CastResult
  description : String
  accepts_operator : Bool
deriving DecidableEq

/-- `Filter._cast`: `try: return int(float(val)) except ValueError: return
str(val)`.  Only `ValueError` is caught; other errors propagate. -/
def Filter._cast (val : Value) : Except PyErr CastResult :=
  match (pyFloatOf val).bind pyIntOfFloat with
  | .ok n => .ok (.cInt n)
  | .error .valueError => .ok (.cStr (pyStr val))
  | .error e => .error e

/-- Is the operator token of `o` a substring of `str_key.lower()`? -/
def presentB (o : Operators) (key : String) : Bool :=
  substrB (opToken o) (lowerStr key)

/-- The `for k in Operators: if k.value in str_key.lower(): op = k` loop of
`_parse_str`: the last matching member of the enum wins. -/
def parseOpLoop (key : String) : Option Operators :=
  opList.foldl (fun acc k => if presentB k key then some k else acc) none

/-- `Filter._parse_str`: probe `str_key`, set `self.operator` on success,
return `False` if the field does not occur in the key, raise when a `.` is
present but no operator token is recognized. -/
def Filter._parse_str (f : Filter) (str_key : String) : Except PyErr (Bool × Filter) :=
  if substrB f.field str_key = false then .ok (false, f)
  else
    let op := parseOpLoop str_key
    let op := if substrB "." str_key = false then some Operators.EQUALS else op
    match op with
    | some o => .ok (true, { f with operator := some o })
    | none => .error (.exception ("Unable to parse operator for Filter: " ++ f.field))

/-- `Filter.from_obj` with the virtual `_convert_imported_limit` step made
explicit as `conv`.  `set_limit` is inlined as `limit := _cast conv-result`. -/
def from_obj_conv (conv : Value → Value) (f : Filter) (key : String) (value : Value) :
    Except PyErr (Bool × Filter) := do
  let (ret, f₁) ← f._parse_str key
  if ret = false then return (false, f₁)
  let c := conv value
  if c = Value.vNone then return (false, f₁)
  let lim ← Filter._cast c
  return (true, { f₁ with limit := some lim })

/-- `Filter.from_obj` of the base class, whose `_convert_imported_limit`
returns its argument unchanged. -/
def Filter.from_obj (f : Filter) (key : String) (value : Value) :
    Except PyErr (Bool × Filter) :=
  from_obj_conv (fun v => v) f key value

/-- `Filter.to_keyval`: the `(field+token, _limit)` pair stored in Settings. -/
def Filter.to_keyval (f : Filter) : String × Option CastResult :=
  (f.field ++ (match f.operator with | some o => opToken o | none => ""), f.limit)

/-- The raw value carried by a `to_keyval` pair when fed back into
`from_obj`. -/
def keyvalValue : Option CastResult → Value
  | none => .vNone
  | some c => c.toValue

/-- Python objects appearing as comparison operands inside `check`:
the cast attribute value, and the stored limit (possibly `None`). -/
inductive PyObj where
  | int (n : Int)
  | str (s : String)
  | noneV
deriving DecidableEq

/-- `isinstance(x, str)`. -/
def PyObj.isStr : PyObj → Bool
  | .str _ => true
  | _ => false

/-- Python `str(x)` of a comparison operand. -/
def pyObjStr : PyObj → String
  | .int n => toString n
  | .str s => s
  | .noneV => "None"

/-- The stored `_limit` as a Python object (`None` when unset). -/
def optCastToPy : Option CastResult → PyObj
  | none => .noneV
  | some (.cInt n) => .int n
  | some (.cStr s) => .str s

/-- A cast result as a Python object. -/
def CastResult.toPyObj : CastResult → PyObj
  | .cInt n => .int n
  | .cStr s => .str s

/-- Python `a <= b` on the operand universe: defined on two ints or two
strings, a `TypeError` otherwise. -/
def pyLe : PyObj → PyObj → Except PyErr Bool
  | .int a, .int b => .ok (decide (a ≤ b))
  | .str a, .str b => .ok (decide (a ≤ b))
  | _, _ => .error .typeError

/-- Python `a >= b` on the operand universe. -/
def pyGe : PyObj → PyObj → Except PyErr Bool
  | .int a, .int b => .ok (decide (b ≤ a))
  | .str a, .str b => .ok (decide (b ≤ a))
  | _, _ => .error .typeError

/-- Python `a == b`: equal within a type, `False` across types, total. -/
def pyEq : PyObj → PyObj → Bool
  | .int a, .int b => decide (a = b)
  | .str a, .str b => decide (a = b)
  | .noneV, .noneV => true
  | _, _ => false

/-- Regular expressions: the core syntax subset compiled by the model. -/
inductive Regex where
  | void
  | eps
  | chr (c : Char)
  | dot
  | cat (a b : Regex)
  | alt (a b : Regex)
  | star (a : Regex)
deriving DecidableEq

/-- Does the regex accept the empty string? -/
def nullable : Regex → Bool
  | .void => false
  | .eps => true
  | .chr _ => false
  | .dot => false
  | .cat a b => nullable a && nullable b
  | .alt a b => nullable a || nullable b
  | .star _ => true

/-- Brzozowski derivative; literal characters are stored lower-cased and the
input character is lower-cased before comparison (`re.IGNORECASE`). -/
def deriv : Regex → Char → Regex
  | .void, _ => .void
  | .eps, _ => .void
  | .chr d, c => if pyLower c = d then .eps else .void
  | .dot, c => if c = '\n' then .void else .eps
  | .cat a b, c => .alt (.cat (deriv a c) b) (if nullable a then deriv b c else .void)
  | .alt a b, c => .alt (deriv a c) (deriv b c)
  | .star a, c => .cat (deriv a c) (.star a)

/-- Does some prefix of `cs` match the regex? -/
def matchHere (r : Regex) : List Char → Bool
  | [] => nullable r
  | c :: cs => nullable r || matchHere (deriv r c) cs

/-- `re.search`: does the regex match somewhere inside `cs`? -/
def rsearch (r : Regex) : List Char → Bool
  | [] => nullable r
  | c :: cs => matchHere r (c :: cs) || rsearch r cs

/-- Special characters whose constructs the regex model does not compile. -/
def reSpecials : List Char := ['(', ')', '[', ']', '|', '^', '$']

/-- Compile the pattern into a sequence of regex atoms. -/
def reCompileAux : List Regex → List Char → Except PyErr (List Regex)
  | acc, [] => .ok acc.reverse
  | acc, '.' :: rest => reCompileAux (.dot :: acc) rest
  | _, '\\' :: [] => .error .reError
  | acc, '\\' :: c :: rest => reCompileAux (.chr (pyLower c) :: acc) rest
  | acc, '*' :: rest =>
    match acc with
    | [] => .error .reError
    | a :: asl => reCompileAux (.star a :: asl) rest
  | acc, '+' :: rest =>
    match acc with
    | [] => .error .reError
    | a :: asl => reCompileAux (.cat a (.star a) :: asl) rest
  | acc, '?' :: rest =>
    match acc with
    | [] => .error .reError
    | a :: asl => reCompileAux (.alt a .eps :: asl) rest
  | acc, c :: rest =>
    if c ∈ reSpecials then .error .reError
    else reCompileAux (.chr (pyLower c) :: acc) rest

/-- `re.compile(pattern, re.IGNORECASE)` over the modelled subset. -/
def reCompile (s : String) : Except PyErr Regex :=
  (reCompileAux [] s.data).map (fun l => l.foldr Regex.cat .eps)

/-- A record: an object with named attributes (`hasattr`/`getattr`). -/
def lookupAttr (r : List (String × Value)) (name : String) : Option Value :=
  match r with
  | [] => none
  | (k, v) :: rest => if k = name then some v else lookupAttr rest name

/-- `Filter.check`: missing-field test, cast of the attribute, lower-cased
string homogenization, then dispatch on the operator; an unset operator is
the final `raise`. -/
def Filter.check (f : Filter) (r : List (String × Value)) : Except PyErr Bool :=
  match lookupAttr r f.field with
  | none => .error (.exception ("No field: " ++ f.field))
  | some a =>
    match Filter._cast a with
    | .error e => .error e
    | .ok v =>
      let valO : PyObj := v.toPyObj
      let limO : PyObj := optCastToPy f.limit
      let p : PyObj × PyObj :=
        if valO.isStr || limO.isStr then
          (.str (lowerStr (pyObjStr valO)), .str (lowerStr (pyObjStr limO)))
        else (valO, limO)
      match f.operator with
      | some .MAXIMUM => pyLe p.1 p.2
      | some .MINIMUM => pyGe p.1 p.2
      | some .EQUALS => .ok (pyEq p.1 p.2)
      | some .MATCH =>
        match reCompile (pyObjStr (optCastToPy f.limit)) with
        | .error e => .error e
        | .ok rx => .ok (rsearch rx (pyObjStr p.1).data)
      | none => .error (.exception "Invalid comparator for Filter!")

/-- A plugin filter class discovered by `get_filters`: its constructor
installs a fixed field and description, and it may override
`_convert_imported_limit` (here `pconv`). -/
structure PluginClass where
  pfield : String
  pdescription : String
  pconv : Value → Value

/-- `clazz()`: a freshly constructed plugin instance. -/
def instantiate (p : PluginClass) : Filter :=
  ⟨p.pfield, none, none, p.pdescription, true⟩

/-- The inner `for k, v in filter_dict.items()` loop over one plugin class. -/
def pluginBind (p : PluginClass) : List (String × Value) → Except PyErr (List Filter)
  | [] => .ok []
  | (k, v) :: rest => do
    let (b, c) ← from_obj_conv p.pconv (instantiate p) k v
    let others ← pluginBind p rest
    return (if b then c :: others else others)

/-- The plugin-class loop of `get_filters` in configuration-bound mode. -/
def pluginPhase : List PluginClass → List (String × Value) → Except PyErr (List Filter)
  | [], _ => .ok []
  | p :: ps, entries => do
    let l ← pluginBind p entries
    let ls ← pluginPhase ps entries
    return (l ++ ls)

/-- `Filter(field=k, description=v)`: a fresh generic filter. -/
def mkDefault (k d : String) : Filter := ⟨k, none, none, d, true⟩

/-- The inner configuration loop of the default-field pass. -/
def defaultBind (k d : String) : List (String × Value) → Except PyErr (List Filter)
  | [] => .ok []
  | (key, v) :: rest => do
    let (b, c) ← Filter.from_obj (mkDefault k d) key v
    let others ← defaultBind k d rest
    return (if b then c :: others else others)

/-- The default-field pass: catalog entries whose field was already used by
a plugin are skipped. -/
def defaultPhase (used : List String) :
    List (String × String) → List (String × Value) → Except PyErr (List Filter)
  | [], _ => .ok []
  | (k, d) :: cat, entries => do
    let l ← if used.contains k then pure [] else defaultBind k d entries
    let ls ← defaultPhase used cat entries
    return (l ++ ls)

/-- `get_filter_fields()`: the Default Field Catalog, in declaration order. -/
def filterFieldsList : List (String × String) :=
  [("link_count", "The amount of links found for this element. (#)"),
   ("type", "The type of post this is. (\"Submission\" or \"Comment\")"),
   ("title", "The title of the submission containing this post. (Text)"),
   ("author", "The author of this element. (Text)"),
   ("body", "The text in this element. Blank if this post is a submission without selftext. (Text)"),
   ("subreddit", "The subreddit this element is from. (Text)"),
   ("over_18", "If this post is age-limited, AKA \"NSFW\". (True/False)"),
   ("created_utc", "The timestamp, in UTC seconds, that this element was posted. (#)"),
   ("num_comments", "The number of comments on this post. (#)"),
   ("score", "The number of net upvotes on this post. (#)")]

/-- `get_filters`: plugin classes bind configuration entries first and mark
their field used; unused default catalog fields then bind the remaining
entries.  Without a configuration, one unbound instance per plugin plus one
per unshadowed default field is returned. -/
def get_filters (plugins : List PluginClass) :
    Option (List (String × Value)) → Except PyErr (List Filter)
  | some entries => do
    let loaded ← pluginPhase plugins entries
    let defs ← defaultPhase (loaded.map Filter.field) filterFieldsList entries
    return (loaded ++ defs)
  | none =>
    .ok (plugins.map instantiate ++
      (filterFieldsList.filter
        (fun kd => !(plugins.map PluginClass.pfield).contains kd.1)).map
        (fun kd => mkDefault kd.1 kd.2))

/-- Comparison kinds used to state the operator semantics. -/
inductive CmpKind where
  | le
  | ge
  | eq
deriving DecidableEq

/-- The comparison described by the spec: on two integers compare
numerically, otherwise compare the lower-cased string forms of both sides. -/
def specCompare (k : CmpKind) (v c : CastResult) : Bool :=
  match v, c with
  | .cInt a, .cInt b =>
    match k with
    | .le => decide (a ≤ b)
    | .ge => decide (b ≤ a)
    | .eq => decide (a = b)
  | v, c =>
    let a := lowerStr (castStr v)
    let b := lowerStr (castStr c)
    match k with
    | .le => decide (a ≤ b)
    | .ge => decide (b ≤ a)
    | .eq => decide (a = b)

/-- The amended description of `Filter._cast`: truncated integer on a finite
float interpretation, string form when the conversion raises `ValueError` or
yields nan, and an uncaught error (`TypeError`/`OverflowError`) otherwise. -/
def specCastAmended (v : Value) : Except PyErr CastResult :=
  match pyFloatOf v with
  | .error .valueError => .ok (.cStr (pyStr v))
  | .error e => .error e
  | .ok (.finite q) => .ok (.cInt (ratTrunc q))
  | .ok .nan => .ok (.cStr (pyStr v))
  | .ok .inf => .error .overflowError
  | .ok .neginf => .error .overflowError

/-- Catalog description of the `created_utc` field. -/
def descCreated : String := "The timestamp, in UTC seconds, that this element was posted. (#)"

/-- A fresh generic filter for the `created_utc` field. -/
def createdUtcFilter : Filter := ⟨"created_utc", none, none, descCreated, true⟩

/-- A plugin class whose constructor binds the `created_utc` field and whose
conversion step is the base-class identity. -/
def createdUtcPlugin : PluginClass :=
  ⟨"created_utc", "Specialized created_utc filter", fun v => v⟩

/-- The configuration of the discovery-precedence example. -/
def cfgC3 : List (String × Value) :=
  [("created_utc.min", .vInt 0), ("created_utc.max", .vInt 100)]

/-- `Rule(field="score", MAXIMUM, limit=10)` from the operator-correctness
example. -/
def scoreMaxF : Filter :=
  ⟨"score", some .MAXIMUM, some (.cInt 10), "The number of net upvotes on this post. (#)", true⟩

/-! ### Character and substring facts -/

theorem toNat_ofNat_valid (n : Nat) (h : n < 55296) : (Char.ofNat n).toNat = n := by
  have hv : n.isValidChar := Or.inl h
  rw [Char.ofNat, dif_pos hv]
  rfl

theorem pyLower_toNat_of_upper {c : Char} (h1 : 65 ≤ c.toNat) (h2 : c.toNat ≤ 90) :
    (pyLower c).toNat = c.toNat + 32 := by
  unfold pyLower
  rw [if_pos ⟨h1, h2⟩]
  exact toNat_ofNat_valid _ (by omega)

theorem pyLower_eq_self {c : Char} (h : ¬(65 ≤ c.toNat ∧ c.toNat ≤ 90)) : pyLower c = c := by
  unfold pyLower
  rw [if_neg h]

/-- Characters below the upper-case range are fixed points of `pyLower` and
are hit only by themselves. -/
theorem pyLower_eq_low {d : Char} (hd : d.toNat < 65) {c : Char} (h : pyLower c = d) : c = d := by
  by_cases hc : 65 ≤ c.toNat ∧ c.toNat ≤ 90
  · exfalso
    have ht := pyLower_toNat_of_upper hc.1 hc.2
    rw [h] at ht
    omega
  · rwa [pyLower_eq_self hc] at h

theorem pyLower_idem (c : Char) : pyLower (pyLower c) = pyLower c := by
  by_cases hc : 65 ≤ c.toNat ∧ c.toNat ≤ 90
  · have ht := pyLower_toNat_of_upper hc.1 hc.2
    apply pyLower_eq_self
    omega
  · rw [pyLower_eq_self hc]
    exact pyLower_eq_self hc

theorem substrB_iff {p s : String} : substrB p s = true ↔ p.data <:+: s.data := by
  simp [substrB]

theorem singleton_infix_iff_mem {c : Char} {l : List Char} : [c] <:+: l ↔ c ∈ l := by
  constructor
  · rintro ⟨s, t, rfl⟩
    simp
  · intro h
    obtain ⟨s, t, rfl⟩ := List.append_of_mem h
    exact ⟨s, t, by simp⟩

theorem infix_map_of_infix (g : Char → Char) {l₁ l₂ : List Char} (h : l₁ <:+: l₂) :
    l₁.map g <:+: l₂.map g := by
  obtain ⟨s, t, rfl⟩ := h
  exact ⟨s.map g, t.map g, by simp⟩

theorem infix_of_prefix_of_suffix {a d f : List Char} (h1 : a <+: d) (h2 : d <:+ f) :
    a <:+: f := by
  obtain ⟨w, hw⟩ := h1
  obtain ⟨p, hp⟩ := h2
  exact ⟨p, w, by rw [← hp, ← hw]; simp⟩

/-- An infix of an appended list lies in the left part, lies in the right
part, or straddles the junction (nonempty suffix of the left part followed
by a nonempty prefix of the right part). -/
theorem infix_append_cases {t f u : List Char} (h : t <:+: f ++ u) :
    t <:+: f ∨ t <:+: u ∨
      ∃ t₁ t₂, t = t₁ ++ t₂ ∧ t₁ ≠ [] ∧ t₂ ≠ [] ∧ t₁ <:+ f ∧ t₂ <+: u := by
  obtain ⟨s, r, hsr⟩ := h
  by_cases hA : s.length + t.length ≤ f.length
  · left
    have hdrop : t ++ r = f.drop s.length ++ u := by
      have h1 : (f ++ u).drop s.length = f.drop s.length ++ u :=
        List.drop_append_of_le_length (by omega)
      have h2 : (f ++ u).drop s.length = t ++ r := by
        rw [← hsr, List.append_assoc, List.drop_left]
      rw [← h1, h2]
    have ht : t = (f.drop s.length).take t.length := by
      have hc := congrArg (List.take t.length) hdrop
      rwa [List.take_left, List.take_append_of_le_length (by simp; omega)] at hc
    rw [ht]
    exact infix_of_prefix_of_suffix (List.take_prefix _ _) (List.drop_suffix _ _)
  · by_cases hB : f.length ≤ s.length
    · right; left
      have h1 : (f ++ u).drop f.length = u := List.drop_left _ _
      have h2 : (f ++ u).drop f.length = s.drop f.length ++ (t ++ r) := by
        rw [← hsr, List.append_assoc, List.drop_append_of_le_length hB]
      have hu : u = s.drop f.length ++ (t ++ r) := h1.symm.trans h2
      exact ⟨s.drop f.length, r, by rw [hu, List.append_assoc]⟩
    · right; right
      refine ⟨t.take (f.length - s.length), t.drop (f.length - s.length),
        (List.take_append_drop _ _).symm, ?_, ?_, ?_, ?_⟩
      · intro hnil
        have hl := congrArg List.length hnil
        simp only [List.length_take, List.length_nil] at hl
        omega
      · intro hnil
        have hl := congrArg List.length hnil
        simp only [List.length_drop, List.length_nil] at hl
        omega
      · have hf : f = s ++ t.take (f.length - s.length) := by
          have h1 : (f ++ u).take f.length = f := List.take_left _ _
          have h2 : (f ++ u).take f.length = s ++ t.take (f.length - s.length) := by
            rw [← hsr, List.append_assoc, List.take_append_eq_append_take,
              List.take_of_length_le (by omega),
              List.take_append_of_le_length (by omega)]
          exact h1.symm.trans h2
        exact ⟨s, hf.symm⟩
      · have hu : u = t.drop (f.length - s.length) ++ r := by
          have h1 : (f ++ u).drop f.length = u := List.drop_left _ _
          have h2 : (f ++ u).drop f.length = t.drop (f.length - s.length) ++ r := by
            rw [← hsr, List.append_assoc, List.drop_append_eq_append_drop,
              List.drop_eq_nil_of_le (by omega),
              List.drop_append_of_le_length (by omega)]
            simp
          exact h1.symm.trans h2
        exact ⟨r, hu.symm⟩

/-! ### Operator token facts -/

theorem opToken_lower (o : Operators) : (opToken o).data.map pyLower = (opToken o).data := by
  cases o <;> rfl

theorem opToken_head (o : Operators) : ∃ tl, (opToken o).data = '.' :: tl := by
  cases o <;> exact ⟨_, rfl⟩

theorem opToken_tail_no_dot (o : Operators) : '.' ∉ (opToken o).data.tail := by
  cases o <;> decide

theorem dot_mem_opToken (o : Operators) : '.' ∈ (opToken o).data := by
  cases o <;> decide

theorem opToken_infix_opToken {o o' : Operators}
    (h : (opToken o).data <:+: (opToken o').data) : o = o' := by
  cases o <;> cases o' <;> first
    | rfl
    | exact absurd h (by decide)

/-- A token occurring in `f ++ token u` occurs in `f` or is the token of
`u` itself: tokens contain `.` only as their head, so none straddles the
junction. -/
theorem token_infix_append {o u : Operators} {f : List Char}
    (h : (opToken o).data <:+: f ++ (opToken u).data) :
    (opToken o).data <:+: f ∨ o = u := by
  rcases infix_append_cases h with h1 | h2 | ⟨t₁, t₂, heq, hne1, hne2, _, hpre⟩
  · exact Or.inl h1
  · exact Or.inr (opToken_infix_opToken h2)
  · exfalso
    obtain ⟨tlu, hu⟩ := opToken_head u
    obtain ⟨w, hw⟩ := hpre
    rw [hu] at hw
    cases t₂ with
    | nil => exact hne2 rfl
    | cons c cs =>
      have hc : c = '.' := by
        have hh := congrArg List.head? hw
        simpa using hh
      subst hc
      cases t₁ with
      | nil => exact hne1 rfl
      | cons b bs =>
        have hmem : '.' ∈ (opToken o).data.tail := by
          rw [heq]
          simp
        exact opToken_tail_no_dot o hmem

/-- If a token is present in the lower-cased key, the key contains a
literal dot. -/
theorem dot_mem_of_present {o : Operators} {key : String}
    (h : presentB o key = true) : '.' ∈ key.data := by
  have hinf : (opToken o).data <:+: key.data.map pyLower := by
    have := substrB_iff.mp h
    simpa [lowerStr] using this
  have hdot : '.' ∈ key.data.map pyLower := by
    have hmem := dot_mem_opToken o
    obtain ⟨s, t, hst⟩ := hinf
    rw [← hst]
    simp [hmem]
  obtain ⟨c, hc, hcl⟩ := List.mem_map.mp hdot
  have : c = '.' := pyLower_eq_low (by decide) hcl
  rwa [this] at hc

/-! ### The operator scan loop -/

theorem parseOpLoop_eq (key : String) :
    parseOpLoop key =
      (if presentB .MATCH key then some .MATCH
       else if presentB .MAXIMUM key then some .MAXIMUM
       else if presentB .MINIMUM key then some .MINIMUM
       else if presentB .EQUALS key then some .EQUALS
       else none) := rfl

theorem parseOpLoop_some_iff {key : String} {o : Operators} :
    parseOpLoop key = some o ↔
      presentB o key = true ∧ ∀ o', presentB o' key = true → opIdx o' ≤ opIdx o := by
  rw [parseOpLoop_eq]
  by_cases h4 : presentB .MATCH key
  · simp only [h4, if_true]
    constructor
    · intro h
      obtain rfl : Operators.MATCH = o := by injection h
      exact ⟨h4, fun o' _ => by cases o' <;> simp [opIdx]⟩
    · rintro ⟨hp, hmax⟩
      have h3 := hmax .MATCH h4
      cases o <;> simp [opIdx] at h3 ⊢
  · simp only [h4, if_false]
    by_cases h3 : presentB .MAXIMUM key
    · simp only [h3, if_true]
      constructor
      · intro h
        obtain rfl : Operators.MAXIMUM = o := by injection h
        refine ⟨h3, fun o' hp' => ?_⟩
        cases o' <;> first
          | exact absurd hp' h4
          | simp [opIdx]
      · rintro ⟨hp, hmax⟩
        have hx := hmax .MAXIMUM h3
        cases o <;> first
          | rfl
          | exact absurd hp h4
          | simp [opIdx] at hx
    · simp only [h3, if_false]
      by_cases h2 : presentB .MINIMUM key
      · simp only [h2, if_true]
        constructor
        · intro h
          obtain rfl : Operators.MINIMUM = o := by injection h
          refine ⟨h2, fun o' hp' => ?_⟩
          cases o' <;> first
            | exact absurd hp' h4
            | exact absurd hp' h3
            | simp [opIdx]
        · rintro ⟨hp, hmax⟩
          have hx := hmax .MINIMUM h2
          cases o <;> first
            | rfl
            | exact absurd hp h4
            | exact absurd hp h3
            | simp [opIdx] at hx
      · simp only [h2, if_false]
        by_cases h1 : presentB .EQUALS key
        · simp only [h1, if_true]
          constructor
          · intro h
            obtain rfl : Operators.EQUALS = o := by injection h
            refine ⟨h1, fun o' hp' => ?_⟩
            cases o' <;> first
              | exact absurd hp' h4
              | exact absurd hp' h3
              | exact absurd hp' h2
              | simp [opIdx]
          · rintro ⟨hp, hmax⟩
            cases o <;> first
              | rfl
              | exact absurd hp h4
              | exact absurd hp h3
              | exact absurd hp h2
        · simp only [h1, if_false]
          constructor
          · intro h
            exact absurd h (by simp)
          · rintro ⟨hp, hmax⟩
            cases o <;> first
              | exact absurd hp h4
              | exact absurd hp h3
              | exact absurd hp h2
              | exact absurd hp h1

theorem parseOpLoop_none {key : String} (h : ∀ o, presentB o key = false) :
    parseOpLoop key = none := by
  rw [parseOpLoop_eq]
  simp [h .MATCH, h .MAXIMUM, h .MINIMUM, h .EQUALS]

/-! ### Cast stability -/

theorem ratTrunc_intCast (n : Int) : ratTrunc (n : Rat) = n := by
  simp [ratTrunc, Rat.num_intCast, Rat.den_intCast]

theorem cast_vInt (n : Int) : Filter._cast (.vInt n) = .ok (.cInt n) := by
  simp [Filter._cast, pyFloatOf, Except.bind, pyIntOfFloat, ratTrunc_intCast]

/-- A value produced by `_cast` is a fixed point of `_cast`. -/
theorem cast_stable {v : Value} {c : CastResult} (h : Filter._cast v = .ok c) :
    Filter._cast c.toValue = .ok c := by
  cases v with
  | vInt n =>
    rw [cast_vInt] at h
    obtain rfl : CastResult.cInt n = c := by injection h
    exact cast_vInt n
  | vBool b =>
    cases b
    · have e1 : Filter._cast (Value.vBool false) = .ok (.cInt 0) := by decide
      rw [e1] at h
      obtain rfl : CastResult.cInt 0 = c := by injection h
      exact cast_vInt 0
    · have e1 : Filter._cast (Value.vBool true) = .ok (.cInt 1) := by decide
      rw [e1] at h
      obtain rfl : CastResult.cInt 1 = c := by injection h
      exact cast_vInt 1
  | vNone => simp [Filter._cast, pyFloatOf, Except.bind] at h
  | vStr s =>
    cases hp : parsePyFloat s with
    | error e =>
      cases e with
      | valueError =>
        have e1 : Filter._cast (.vStr s) = .ok (.cStr s) := by
          simp [Filter._cast, pyFloatOf, hp, Except.bind, pyStr]
        rw [e1] at h
        obtain rfl : CastResult.cStr s = c := by injection h
        exact e1
      | exception msg => simp [Filter._cast, pyFloatOf, hp, Except.bind] at h
      | typeError => simp [Filter._cast, pyFloatOf, hp, Except.bind] at h
      | overflowError => simp [Filter._cast, pyFloatOf, hp, Except.bind] at h
      | reError => simp [Filter._cast, pyFloatOf, hp, Except.bind] at h
    | ok pf =>
      cases pf with
      | finite q =>
        have e1 : Filter._cast (.vStr s) = .ok (.cInt (ratTrunc q)) := by
          simp [Filter._cast, pyFloatOf, hp, Except.bind, pyIntOfFloat]
        rw [e1] at h
        obtain rfl : CastResult.cInt (ratTrunc q) = c := by injection h
        exact cast_vInt _
      | nan =>
        have e1 : Filter._cast (.vStr s) = .ok (.cStr s) := by
          simp [Filter._cast, pyFloatOf, hp, Except.bind, pyIntOfFloat, pyStr]
        rw [e1] at h
        obtain rfl : CastResult.cStr s = c := by injection h
        exact e1
      | inf => simp [Filter._cast, pyFloatOf, hp, Except.bind, pyIntOfFloat] at h
      | neginf => simp [Filter._cast, pyFloatOf, hp, Except.bind, pyIntOfFloat] at h

/-! ### Shape lemmas for `_parse_str` and `from_obj` -/

theorem parse_str_eq (f : Filter) (key : String) :
    f._parse_str key =
      (if substrB f.field key = false then .ok (false, f)
       else
         match (if substrB "." key = false then some Operators.EQUALS else parseOpLoop key) with
         | some o => .ok (true, { f with operator := some o })
         | none => .error (.exception ("Unable to parse operator for Filter: " ++ f.field))) :=
  rfl

theorem parse_str_true_elim {f : Filter} {key : String} {f₁ : Filter}
    (h : f._parse_str key = .ok (true, f₁)) :
    substrB f.field key = true ∧
      ∃ o, (if substrB "." key = false then some Operators.EQUALS else parseOpLoop key) = some o ∧
        f₁ = { f with operator := some o } := by
  rw [parse_str_eq] at h
  by_cases hf : substrB f.field key = false
  · simp [hf] at h
  · cases ho : (if substrB "." key = false then some Operators.EQUALS else parseOpLoop key) with
    | none =>
      simp [hf, ho] at h
    | some o =>
      rw [if_neg hf, ho] at h
      injection h with h1
      injection h1 with h2 h3
      exact ⟨by simpa using hf, o, rfl, h3.symm⟩

theorem from_obj_conv_eq (conv : Value → Value) (f : Filter) (key : String) (value : Value) :
    from_obj_conv conv f key value =
      (match f._parse_str key with
       | .error e => .error e
       | .ok (false, f₁) => .ok (false, f₁)
       | .ok (true, f₁) =>
         if conv value = Value.vNone then .ok (false, f₁)
         else
           match Filter._cast (conv value) with
           | .error e => .error e
           | .ok lim => .ok (true, { f₁ with limit := some lim })) := by
  unfold from_obj_conv
  cases hp : f._parse_str key with
  | error e => rfl
  | ok p =>
    obtain ⟨ret, f₁⟩ := p
    cases ret
    · rfl
    · by_cases hv : conv value = Value.vNone
      · simp [Bind.bind, Except.bind, Pure.pure, Except.pure, hv]
      · cases hc : Filter._cast (conv value) <;>
          simp [Bind.bind, Except.bind, Pure.pure, Except.pure, hv, hc]

theorem from_obj_not_applicable (conv : Value → Value) {f : Filter} {key : String}
    (value : Value) (h : substrB f.field key = false) :
    from_obj_conv conv f key value = .ok (false, f) := by
  rw [from_obj_conv_eq, parse_str_eq]
  simp [h]

/-- Computation form of a successful binding. -/
theorem from_obj_conv_true_compute {conv : Value → Value} {f f₁ : Filter} {key : String}
    {value : Value} {lim : CastResult}
    (hp : f._parse_str key = .ok (true, f₁))
    (hv : conv value ≠ Value.vNone)
    (hc : Filter._cast (conv value) = .ok lim) :
    from_obj_conv conv f key value = .ok (true, { f₁ with limit := some lim }) := by
  rw [from_obj_conv_eq, hp]
  simp [hv, hc]

/-- Computation form of the invalid-value-sentinel path: the parse already
succeeded (mutating the operator) but the conversion produced `None`. -/
theorem from_obj_conv_sentinel_compute {conv : Value → Value} {f f₁ : Filter} {key : String}
    {value : Value}
    (hp : f._parse_str key = .ok (true, f₁))
    (hv : conv value = Value.vNone) :
    from_obj_conv conv f key value = .ok (false, f₁) := by
  rw [from_obj_conv_eq, hp]
  simp [hv]

theorem from_obj_conv_true_elim {conv : Value → Value} {f : Filter} {key : String}
    {value : Value} {f' : Filter}
    (h : from_obj_conv conv f key value = .ok (true, f')) :
    ∃ o lim,
      (if substrB "." key = false then some Operators.EQUALS else parseOpLoop key) = some o ∧
      substrB f.field key = true ∧
      conv value ≠ Value.vNone ∧ Filter._cast (conv value) = .ok lim ∧
      f' = { f with operator := some o, limit := some lim } := by
  cases hp : f._parse_str key with
  | error e =>
    have hx : from_obj_conv conv f key value = .error e := by
      rw [from_obj_conv_eq, hp]
    rw [h] at hx
    simp at hx
  | ok p =>
    obtain ⟨ret, f₁⟩ := p
    cases ret
    · have hx : from_obj_conv conv f key value = .ok (false, f₁) := by
        rw [from_obj_conv_eq, hp]
      rw [h] at hx
      simp at hx
    · obtain ⟨hfield, o, ho, rfl⟩ := parse_str_true_elim hp
      by_cases hv : conv value = Value.vNone
      · have hx := from_obj_conv_sentinel_compute hp hv
        rw [h] at hx
        simp at hx
      · cases hc : Filter._cast (conv value) with
        | error e =>
          have hx : from_obj_conv conv f key value = .error e := by
            rw [from_obj_conv_eq, hp]
            simp [hv, hc]
          rw [h] at hx
          simp at hx
        | ok lim =>
          have hcomp := from_obj_conv_true_compute hp hv hc
          rw [h] at hcomp
          injection hcomp with h1
          injection h1 with h2 h3
          exact ⟨o, lim, ho, hfield, hv, rfl, h3⟩

/-- A `from_obj` call never changes `field`, `description` or
`accepts_operator` of the filter it returns. -/
theorem from_obj_conv_ok_elim {conv : Value → Value} {f : Filter} {key : String}
    {value : Value} {b : Bool} {f' : Filter}
    (h : from_obj_conv conv f key value = .ok (b, f')) :
    f'.field = f.field ∧ f'.description = f.description ∧
      f'.accepts_operator = f.accepts_operator := by
  rw [from_obj_conv_eq] at h
  cases hp : f._parse_str key with
  | error e =>
    rw [hp] at h
    simp at h
  | ok p =>
    obtain ⟨ret, f₁⟩ := p
    rw [hp] at h
    have hshape : f₁ = f ∨ ∃ o, f₁ = { f with operator := some o } := by
      rw [parse_str_eq] at hp
      by_cases hf : substrB f.field key = false
      · simp only [hf, if_true, if_pos] at hp
        left
        injection hp with h1
        injection h1 with h2 h3
        exact h3.symm
      · cases ho : (if substrB "." key = false then some Operators.EQUALS else parseOpLoop key) with
        | none =>
          simp [hf, ho] at hp
        | some o =>
          right
          refine ⟨o, ?_⟩
          simp only [if_neg hf, ho] at hp
          injection hp with h1
          injection h1 with h2 h3
          exact h3.symm
    have hf1 : f' = f₁ ∨ ∃ lim, f' = { f₁ with limit := some lim } := by
      cases ret
      · left
        injection h with h1
        injection h1 with h2 h3
        exact h3.symm
      · by_cases hv : conv value = Value.vNone
        · simp only [if_pos hv] at h
          left
          injection h with h1
          injection h1 with h2 h3
          exact h3.symm
        · simp only [if_neg hv] at h
          cases hc : Filter._cast (conv value) with
          | error e =>
            rw [hc] at h
            simp at h
          | ok lim =>
            rw [hc] at h
            right
            refine ⟨lim, ?_⟩
            injection h with h1
            injection h1 with h2 h3
            exact h3.symm
    rcases hshape with rfl | ⟨o, rfl⟩ <;> rcases hf1 with rfl | ⟨lim, rfl⟩ <;> simp

/-! ### Case-insensitivity of the regex engine -/

theorem deriv_pyLower (r : Regex) (c : Char) : deriv r (pyLower c) = deriv r c := by
  have hnl : (pyLower c = '\n') = (c = '\n') :=
    propext ⟨pyLower_eq_low (by decide), fun h => by rw [h]; exact pyLower_eq_self (by decide)⟩
  induction r with
  | void => rfl
  | eps => rfl
  | chr d => simp [deriv, pyLower_idem]
  | dot => simp [deriv, hnl]
  | cat a b iha ihb => simp [deriv, iha, ihb]
  | alt a b iha ihb => simp [deriv, iha, ihb]
  | star a iha => simp [deriv, iha]

theorem matchHere_map_pyLower (cs : List Char) : ∀ r : Regex,
    matchHere r (cs.map pyLower) = matchHere r cs := by
  induction cs with
  | nil => intro r; rfl
  | cons c cs ih =>
    intro r
    simp only [List.map_cons, matchHere, deriv_pyLower, ih]

theorem rsearch_map_pyLower (cs : List Char) (r : Regex) :
    rsearch r (cs.map pyLower) = rsearch r cs := by
  induction cs with
  | nil => rfl
  | cons c cs ih =>
    simp only [List.map_cons, rsearch, ih]
    have hm : matchHere r (pyLower c :: cs.map pyLower) = matchHere r (c :: cs) := by
      have := matchHere_map_pyLower (c :: cs) r
      simpa using this
    rw [hm]

/-! ### Evaluation lemmas for `check` -/

theorem check_no_field {f : Filter} {r : List (String × Value)}
    (h : lookupAttr r f.field = none) :
    f.check r = .error (.exception ("No field: " ++ f.field)) := by
  unfold Filter.check
  rw [h]

theorem check_cast_error {f : Filter} {r : List (String × Value)} {a : Value} {e : PyErr}
    (hlook : lookupAttr r f.field = some a) (hcast : Filter._cast a = .error e) :
    f.check r = .error e := by
  unfold Filter.check
  simp only [hlook]
  rw [hcast]

theorem check_op_none {f : Filter} {r : List (String × Value)} {a : Value} {v : CastResult}
    (hlook : lookupAttr r f.field = some a) (hcast : Filter._cast a = .ok v)
    (hop : f.operator = none) :
    f.check r = .error (.exception "Invalid comparator for Filter!") := by
  unfold Filter.check
  simp only [hlook, hcast, hop]

/-- Full evaluation of `check` once the field is present, the attribute
casts, and operator and limit are set. -/
theorem check_eq {f : Filter} {op : Operators} {c : CastResult}
    {r : List (String × Value)} {a : Value} {v : CastResult}
    (hop : f.operator = some op) (hlim : f.limit = some c)
    (hlook : lookupAttr r f.field = some a) (hcast : Filter._cast a = .ok v) :
    f.check r =
      (match op with
       | .MAXIMUM => .ok (specCompare .le v c)
       | .MINIMUM => .ok (specCompare .ge v c)
       | .EQUALS => .ok (specCompare .eq v c)
       | .MATCH =>
         match reCompile (castStr c) with
         | .error e => .error e
         | .ok rx => .ok (rsearch rx (castStr v).data)) := by
  unfold Filter.check
  simp only [hlook, hcast, hop, hlim]
  cases op with
  | MAXIMUM =>
    cases v <;> cases c <;>
      simp [specCompare, pyLe, optCastToPy, CastResult.toPyObj, PyObj.isStr, pyObjStr, castStr]
  | MINIMUM =>
    cases v <;> cases c <;>
      simp [specCompare, pyGe, optCastToPy, CastResult.toPyObj, PyObj.isStr, pyObjStr, castStr]
  | EQUALS =>
    cases v <;> cases c <;>
      simp [specCompare, pyEq, optCastToPy, CastResult.toPyObj, PyObj.isStr, pyObjStr, castStr]
  | MATCH =>
    cases hrx : reCompile (castStr c) with
    | error e =>
      cases v <;> cases c <;>
        simp_all [optCastToPy, CastResult.toPyObj, PyObj.isStr, pyObjStr, castStr]
    | ok rx =>
      cases v <;> cases c <;>
        simp_all [optCastToPy, CastResult.toPyObj, PyObj.isStr, pyObjStr, castStr, lowerStr,
          rsearch_map_pyLower]

/-! ### Claim theorems -/

/-- C7: the cast is idempotent: re-casting the result of a successful cast
returns it unchanged, and on the error side both casts raise identically,
so `cast(cast(x)) == cast(x)` wherever `cast` is defined. -/
theorem c7_cast_idempotent :
    ∀ v : Value, (Filter._cast v).bind (fun c => Filter._cast c.toValue) = Filter._cast v := by
  intro v
  cases hv : Filter._cast v with
  | error e => rfl
  | ok c => exact cast_stable hv

/-- C5 counterexample: `_cast` does raise for some inputs: `None` raises
`TypeError` (only `ValueError` is caught) and `"inf"` converts to an
infinite float whose integer truncation raises `OverflowError`. -/
theorem c5_counterexample :
    Filter._cast Value.vNone = .error .typeError ∧
      Filter._cast (.vStr "inf") = .error .overflowError := by
  constructor
  · rfl
  · decide

/-- C5 (amended): `_cast` returns the truncated integer whenever the float
interpretation exists and is finite; it returns the string form when the
float conversion raises `ValueError` or produces nan; and it raises
(uncaught `TypeError`/`OverflowError`) for inputs such as `None` or
`"inf"` — it is not total. -/
theorem c5_cast_characterization :
    ∀ v : Value, Filter._cast v = specCastAmended v := by
  intro v
  unfold Filter._cast specCastAmended
  cases hp : pyFloatOf v with
  | error e => cases e <;> rfl
  | ok pf => cases pf <;> rfl

/-- C4 counterexample: on the sentinel, `from_obj` returns false but the
filter is not unmutated — its operator has been set by the parse step. -/
theorem c4_counterexample :
    Filter.from_obj createdUtcFilter "created_utc.min" Value.vNone =
        .ok (false, { createdUtcFilter with operator := some Operators.MINIMUM }) ∧
      ({ createdUtcFilter with operator := some Operators.MINIMUM }).operator ≠
        createdUtcFilter.operator := by
  constructor
  · decide
  · decide

/-- C4 (amended): when the parse step succeeds and the conversion step
yields the sentinel `None`, `from_obj` returns false and the limit, field,
description and operator-capability flag are unchanged — but the operator
has already been overwritten by the parse step. -/
theorem c4_sentinel_no_limit_mutation :
    ∀ (conv : Value → Value) (f f₁ : Filter) (key : String) (value : Value),
      f._parse_str key = .ok (true, f₁) →
      conv value = Value.vNone →
      from_obj_conv conv f key value = .ok (false, f₁) ∧
        f₁.limit = f.limit ∧ f₁.field = f.field ∧ f₁.description = f.description ∧
        f₁.accepts_operator = f.accepts_operator := by
  intro conv f f₁ key value hp hv
  obtain ⟨hfield, o, ho, rfl⟩ := parse_str_true_elim hp
  exact ⟨from_obj_conv_sentinel_compute hp hv, rfl, rfl, rfl, rfl⟩

/-- C4 witness: the amended statement at the concrete sentinel binding. -/
theorem c4_sentinel_witness :
    from_obj_conv (fun v => v) createdUtcFilter "created_utc.min" Value.vNone =
        .ok (false, { createdUtcFilter with operator := some Operators.MINIMUM }) ∧
      ({ createdUtcFilter with operator := some Operators.MINIMUM }).limit =
        createdUtcFilter.limit ∧
      ({ createdUtcFilter with operator := some Operators.MINIMUM }).field =
        createdUtcFilter.field ∧
      ({ createdUtcFilter with operator := some Operators.MINIMUM }).description =
        createdUtcFilter.description ∧
      ({ createdUtcFilter with operator := some Operators.MINIMUM }).accepts_operator =
        createdUtcFilter.accepts_operator :=
  c4_sentinel_no_limit_mutation (fun v => v) createdUtcFilter
    { createdUtcFilter with operator := some Operators.MINIMUM }
    "created_utc.min" Value.vNone (by decide) rfl

/-- C6: for a key containing the field, a `.` separator with no recognized
operator token raises the fatal parse error, while a key containing no `.`
at all defaults the operator to EQUALS. -/
theorem c6_malformed_token :
    ∀ (f : Filter) (key : String),
      substrB f.field key = true →
      ((substrB "." key = true ∧ (∀ o : Operators, presentB o key = false)) →
        f._parse_str key =
          .error (.exception ("Unable to parse operator for Filter: " ++ f.field))) ∧
      (substrB "." key = false →
        f._parse_str key = .ok (true, { f with operator := some Operators.EQUALS })) := by
  intro f key hfield
  constructor
  · rintro ⟨hdot, htok⟩
    rw [parse_str_eq, if_neg (by simp [hfield]), if_neg (by simp [hdot]),
      parseOpLoop_none htok]
  · intro hdot
    rw [parse_str_eq, if_neg (by simp [hfield]), if_pos hdot]

/-- C6 witness: `created_utc.bogus` raises; `created_utc` (no dot)
defaults to EQUALS. -/
theorem c6_witness :
    createdUtcFilter._parse_str "created_utc.bogus" =
        .error (.exception ("Unable to parse operator for Filter: " ++ createdUtcFilter.field)) ∧
      createdUtcFilter._parse_str "created_utc" =
        .ok (true, { createdUtcFilter with operator := some Operators.EQUALS }) := by
  constructor
  · exact (c6_malformed_token createdUtcFilter "created_utc.bogus" (by decide)).1
      ⟨by decide, by decide⟩
  · exact (c6_malformed_token createdUtcFilter "created_utc" (by decide)).2 (by decide)

/-- C10: when several operator tokens occur in the key (case-insensitively),
`_parse_str` binds the one occurring latest in the declaration order
EQUALS, MINIMUM, MAXIMUM, MATCH, regardless of their positions in the key. -/
theorem c10_last_token_wins :
    ∀ (f : Filter) (key : String) (o : Operators),
      substrB f.field key = true →
      presentB o key = true →
      (∀ o', opIdx o < opIdx o' → presentB o' key = false) →
      f._parse_str key = .ok (true, { f with operator := some o }) := by
  intro f key o hfield hpres hlater
  have hdot : substrB "." key = true := by
    rw [substrB_iff]
    exact singleton_infix_iff_mem.mpr (dot_mem_of_present hpres)
  have hloop : parseOpLoop key = some o := by
    rw [parseOpLoop_some_iff]
    refine ⟨hpres, fun o' hp' => ?_⟩
    by_contra hgt
    push_neg at hgt
    rw [hlater o' hgt] at hp'
    exact absurd hp' (by simp)
  rw [parse_str_eq, if_neg (by simp [hfield]), if_neg (by simp [hdot]), hloop]

/-- C10 witness: a key containing both `.min` and `.max` always parses to
MAXIMUM. -/
theorem c10_witness :
    createdUtcFilter._parse_str "created_utc.min.max" =
      .ok (true, { createdUtcFilter with operator := some Operators.MAXIMUM }) :=
  c10_last_token_wins createdUtcFilter "created_utc.min.max" .MAXIMUM
    (by decide) (by decide) (by decide)

/-- C1: with operator and limit set, a record exposing the field, and the
attribute value cast to `v`, `check` compares the cast attribute against
the stored limit: both sides as lower-cased strings when either is a
string, numerically otherwise; MAXIMUM is `≤`, MINIMUM is `≥`, EQUALS is
`==`, and MATCH compiles the stored limit case-insensitively and searches
anywhere within the string form of the attribute. -/
theorem c1_check_operator_semantics :
    ∀ (f : Filter) (op : Operators) (c : CastResult) (r : List (String × Value))
      (a : Value) (v : CastResult),
      f.operator = some op → f.limit = some c →
      lookupAttr r f.field = some a → Filter._cast a = .ok v →
      (op = .MAXIMUM → f.check r = .ok (specCompare .le v c)) ∧
      (op = .MINIMUM → f.check r = .ok (specCompare .ge v c)) ∧
      (op = .EQUALS → f.check r = .ok (specCompare .eq v c)) ∧
      (∀ rx, op = .MATCH → reCompile (castStr c) = .ok rx →
        f.check r = .ok (rsearch rx (castStr v).data)) := by
  intro f op c r a v hop hlim hlook hcast
  have he := check_eq hop hlim hlook hcast
  refine ⟨?_, ?_, ?_, ?_⟩
  · rintro rfl
    exact he
  · rintro rfl
    exact he
  · rintro rfl
    exact he
  · rintro rx rfl hrx
    rw [he, hrx]

/-- C1 witness: the concrete example of the claim,
`Rule("score", MAXIMUM, 10)`: score 10 passes, score 11 fails. -/
theorem c1_witness :
    Filter.check scoreMaxF [("score", .vInt 10)] = .ok true ∧
      Filter.check scoreMaxF [("score", .vInt 11)] = .ok false := by
  constructor
  · have h := (c1_check_operator_semantics scoreMaxF .MAXIMUM (.cInt 10)
      [("score", .vInt 10)] (.vInt 10) (.cInt 10) rfl rfl (by decide) (by decide)).1 rfl
    rw [h]
    decide
  · have h := (c1_check_operator_semantics scoreMaxF .MAXIMUM (.cInt 10)
      [("score", .vInt 11)] (.vInt 11) (.cInt 11) rfl rfl (by decide) (by decide)).1 rfl
    rw [h]
    decide

/-- C8 counterexample: operator and limit are set and the record exposes
the field, yet `check` raises: the attribute `None` does not cast
(`TypeError` is not caught by `_cast`). -/
theorem c8_counterexample :
    scoreMaxF.operator = some Operators.MAXIMUM ∧
      scoreMaxF.limit = some (.cInt 10) ∧
      lookupAttr [("score", Value.vNone)] scoreMaxF.field = some Value.vNone ∧
      Filter.check scoreMaxF [("score", Value.vNone)] = .error .typeError := by
  refine ⟨rfl, rfl, by decide, ?_⟩
  exact check_cast_error (a := Value.vNone) (by decide) rfl

/-- C8 (amended): `check` raises the missing-field error when the record
lacks the field (before any comparison), and the invalid-comparator error
when the operator is unset; but even with operator and limit set it
returns a boolean exactly when the attribute value casts without an
uncaught error and, for MATCH, the stored limit compiles as a regex. -/
theorem c8_check_error_surface :
    (∀ (f : Filter) (r : List (String × Value)), lookupAttr r f.field = none →
      f.check r = .error (.exception ("No field: " ++ f.field))) ∧
    (∀ (f : Filter) (r : List (String × Value)) (a : Value) (v : CastResult),
      lookupAttr r f.field = some a → Filter._cast a = .ok v → f.operator = none →
      f.check r = .error (.exception "Invalid comparator for Filter!")) ∧
    (∀ (f : Filter) (op : Operators) (c : CastResult) (r : List (String × Value)) (a : Value),
      f.operator = some op → f.limit = some c → lookupAttr r f.field = some a →
      ((∃ b, f.check r = .ok b) ↔
        ((∃ v, Filter._cast a = .ok v) ∧
          (op = .MATCH → ∃ rx, reCompile (castStr c) = .ok rx)))) := by
  refine ⟨fun f r h => check_no_field h, fun f r a v h1 h2 h3 => check_op_none h1 h2 h3, ?_⟩
  intro f op c r a hop hlim hlook
  constructor
  · rintro ⟨b, hb⟩
    cases hcast : Filter._cast a with
    | error e =>
      rw [check_cast_error hlook hcast] at hb
      exact absurd hb (by simp)
    | ok v =>
      refine ⟨⟨v, rfl⟩, ?_⟩
      rintro rfl
      cases hrx : reCompile (castStr c) with
      | error e =>
        rw [check_eq hop hlim hlook hcast, hrx] at hb
        exact absurd hb (by simp)
      | ok rx => exact ⟨rx, rfl⟩
  · rintro ⟨⟨v, hcast⟩, hmatch⟩
    rw [check_eq hop hlim hlook hcast]
    cases op with
    | MAXIMUM => exact ⟨_, rfl⟩
    | MINIMUM => exact ⟨_, rfl⟩
    | EQUALS => exact ⟨_, rfl⟩
    | MATCH =>
      obtain ⟨rx, hrx⟩ := hmatch rfl
      rw [hrx]
      exact ⟨_, rfl⟩

/-- C8 witness: the amended statement at concrete inputs — a record
missing the field, an unset operator, and the exact boolean-return
condition for a set operator and limit. -/
theorem c8_witness :
    Filter.check scoreMaxF [] = .error (.exception ("No field: " ++ scoreMaxF.field)) ∧
      Filter.check { scoreMaxF with operator := none } [("score", .vInt 5)] =
        .error (.exception "Invalid comparator for Filter!") ∧
      ((∃ b, Filter.check scoreMaxF [("score", .vInt 5)] = .ok b) ↔
        ((∃ v, Filter._cast (.vInt 5) = .ok v) ∧
          (Operators.MAXIMUM = Operators.MATCH →
            ∃ rx, reCompile (castStr (.cInt 10)) = .ok rx))) := by
  refine ⟨?_, ?_, ?_⟩
  · exact c8_check_error_surface.1 scoreMaxF [] (by decide)
  · exact c8_check_error_surface.2.1 { scoreMaxF with operator := none }
      [("score", .vInt 5)] (.vInt 5) (.cInt 5) (by decide) (by decide) rfl
  · exact c8_check_error_surface.2.2 scoreMaxF .MAXIMUM (.cInt 10)
      [("score", .vInt 5)] (.vInt 5) rfl rfl (by decide)

/-! ### Round-trip machinery -/

theorem dot_mem_of_mem_lower {s : String} (h : '.' ∈ (lowerStr s).data) : '.' ∈ s.data := by
  obtain ⟨c, hc, hcl⟩ := List.mem_map.mp (by simpa [lowerStr] using h)
  exact (pyLower_eq_low (by decide) hcl) ▸ hc

/-- The lower-cased serialized key decomposes as lower-cased field followed
by the (already lower-case) operator token. -/
theorem lower_append_token (field : String) (u : Operators) :
    (lowerStr (field ++ opToken u)).data = (lowerStr field).data ++ (opToken u).data := by
  simp [lowerStr, String.data_append, opToken_lower]

/-- A token present in the serialized key `field ++ token u` either occurs
in the lower-cased field or is `u`'s token itself. -/
theorem present_append_token {field : String} {u o : Operators}
    (h : presentB o (field ++ opToken u) = true) :
    (opToken o).data <:+: (lowerStr field).data ∨ o = u := by
  have hinf : (opToken o).data <:+: (lowerStr field).data ++ (opToken u).data := by
    have := substrB_iff.mp h
    rwa [lower_append_token] at this
  exact token_infix_append hinf

/-- A token occurring in the lower-cased field of a bound key is present in
the original key. -/
theorem present_of_field {field key : String} {o : Operators}
    (hf : substrB field key = true)
    (h : (opToken o).data <:+: (lowerStr field).data) : presentB o key = true := by
  have hmap : (lowerStr field).data <:+: (lowerStr key).data := by
    simpa [lowerStr] using infix_map_of_infix pyLower (substrB_iff.mp hf)
  exact substrB_iff.mpr (h.trans hmap)

/-- Parsing the serialized key `field ++ token o` of a bound filter
recovers exactly the bound operator `o`. -/
theorem parse_serialized_key {f g : Filter} {key : String} {o : Operators}
    (hg : g.field = f.field)
    (hfield : substrB f.field key = true)
    (ho : (if substrB "." key = false then some Operators.EQUALS else parseOpLoop key) = some o) :
    g._parse_str (f.field ++ opToken o) = .ok (true, { g with operator := some o }) := by
  have hf2 : substrB g.field (f.field ++ opToken o) = true := by
    rw [hg, substrB_iff, String.data_append]
    exact ⟨[], (opToken o).data, by simp⟩
  have hdot2 : substrB "." (f.field ++ opToken o) = true := by
    rw [substrB_iff, String.data_append]
    exact singleton_infix_iff_mem.mpr (by simp [dot_mem_opToken o])
  have hpres : presentB o (f.field ++ opToken o) = true := by
    rw [presentB, substrB_iff, lower_append_token]
    exact ⟨(lowerStr f.field).data, [], by simp⟩
  have hmax : ∀ o', presentB o' (f.field ++ opToken o) = true → opIdx o' ≤ opIdx o := by
    intro o' hp'
    rcases present_append_token hp' with hfo | rfl
    · by_cases hdotk : substrB "." key = false
      · exfalso
        obtain rfl : Operators.EQUALS = o := by
          rw [if_pos hdotk] at ho
          injection ho
        have hdotf : '.' ∈ (lowerStr f.field).data := by
          obtain ⟨s, t, hst⟩ := hfo
          rw [← hst]
          simp [dot_mem_opToken o']
        have hdotk2 : '.' ∈ key.data := by
          obtain ⟨s, t, hst⟩ := substrB_iff.mp hfield
          rw [← hst]
          simp [dot_mem_of_mem_lower hdotf]
        have hsub : substrB "." key = true := by
          rw [substrB_iff]
          exact singleton_infix_iff_mem.mpr hdotk2
        rw [hdotk] at hsub
        exact absurd hsub (by simp)
      · rw [if_neg hdotk] at ho
        exact (parseOpLoop_some_iff.mp ho).2 o' (present_of_field hfield hfo)
    · exact Nat.le_refl _
  have hloop : parseOpLoop (f.field ++ opToken o) = some o :=
    parseOpLoop_some_iff.mpr ⟨hpres, hmax⟩
  rw [parse_str_eq, if_neg (by simp [hf2]), if_neg (by simp [hdot2]), hloop]

/-- C2: a successfully bound filter serializes through `to_keyval` to a
(key, value) pair that a fresh filter of the same type re-parses via
`from_obj` into the same operator and the same cast limit. -/
theorem c2_roundtrip :
    ∀ (f : Filter) (key : String) (value : Value) (f' : Filter),
      Filter.from_obj f key value = .ok (true, f') →
      ∀ g : Filter, g.field = f.field →
      ∃ g', Filter.from_obj g f'.to_keyval.1 (keyvalValue f'.to_keyval.2) = .ok (true, g') ∧
        g'.operator = f'.operator ∧ g'.limit = f'.limit := by
  intro f key value f' h g hg
  obtain ⟨o, lim, ho, hfield, _, hc, rfl⟩ := from_obj_conv_true_elim h
  have hkv1 : (Filter.to_keyval { f with operator := some o, limit := some lim }).1 =
      f.field ++ opToken o := rfl
  have hkv2 : keyvalValue (Filter.to_keyval { f with operator := some o, limit := some lim }).2 =
      lim.toValue := rfl
  rw [hkv1, hkv2]
  have hg_parse := parse_serialized_key hg hfield ho
  have hnn : (fun v => v) lim.toValue ≠ Value.vNone := by
    cases lim <;> simp [CastResult.toValue]
  have hcast2 : Filter._cast ((fun v => v) lim.toValue) = .ok lim := cast_stable hc
  refine ⟨{ g with operator := some o, limit := some lim }, ?_, rfl, rfl⟩
  exact from_obj_conv_true_compute hg_parse hnn hcast2

/-- C2 witness: binding `created_utc.min ↦ 0`, serializing, and re-parsing
with a fresh filter of the same field reproduces operator and limit. -/
theorem c2_witness :
    ∃ g', Filter.from_obj createdUtcFilter
        (⟨"created_utc", some Operators.MINIMUM, some (.cInt 0), descCreated, true⟩ :
          Filter).to_keyval.1
        (keyvalValue (⟨"created_utc", some Operators.MINIMUM, some (.cInt 0), descCreated,
          true⟩ : Filter).to_keyval.2) = .ok (true, g') ∧
      g'.operator = some Operators.MINIMUM ∧ g'.limit = some (.cInt 0) :=
  c2_roundtrip createdUtcFilter "created_utc.min" (.vInt 0)
    ⟨"created_utc", some Operators.MINIMUM, some (.cInt 0), descCreated, true⟩
    (by decide) createdUtcFilter rfl

/-! ### Discovery and merge lemmas -/

theorem defaultBind_fields {k d : String} {entries : List (String × Value)} {l : List Filter}
    (h : defaultBind k d entries = .ok l) : ∀ c ∈ l, c.field = k := by
  induction entries generalizing l with
  | nil =>
    unfold defaultBind at h
    injection h with h1
    subst h1
    intro c hc
    exact absurd hc (by simp)
  | cons e rest ih =>
    obtain ⟨key, v⟩ := e
    unfold defaultBind at h
    cases hfo : Filter.from_obj (mkDefault k d) key v with
    | error e =>
      rw [hfo] at h
      simp [Bind.bind, Except.bind] at h
    | ok p =>
      obtain ⟨b, c⟩ := p
      rw [hfo] at h
      cases hr : defaultBind k d rest with
      | error e =>
        rw [hr] at h
        simp [Bind.bind, Except.bind] at h
      | ok others =>
        rw [hr] at h
        have hfield : c.field = k := (from_obj_conv_ok_elim hfo).1
        have hl : l = if b then c :: others else others := by
          have := h
          simp [Bind.bind, Except.bind, Pure.pure, Except.pure] at this
          exact this.symm
        subst hl
        intro x hx
        cases b with
        | true =>
          rcases List.mem_cons.mp (by simpa using hx) with rfl | hx'
          · exact hfield
          · exact ih hr x hx'
        | false => exact ih hr x (by simpa using hx)

theorem defaultPhase_fields {used : List String} {cat : List (String × String)}
    {entries : List (String × Value)} {l : List Filter}
    (h : defaultPhase used cat entries = .ok l) :
    ∀ c ∈ l, used.contains c.field = false := by
  induction cat generalizing l with
  | nil =>
    unfold defaultPhase at h
    injection h with h1
    subst h1
    intro c hc
    exact absurd hc (by simp)
  | cons e cat ih =>
    obtain ⟨k, d⟩ := e
    unfold defaultPhase at h
    cases hu : used.contains k with
    | true =>
      rw [hu] at h
      cases hr : defaultPhase used cat entries with
      | error e =>
        rw [hr] at h
        simp [Bind.bind, Except.bind, Pure.pure, Except.pure] at h
      | ok ls =>
        rw [hr] at h
        have hl : l = ls := by
          have := h
          simp [Bind.bind, Except.bind, Pure.pure, Except.pure] at this
          exact this.symm
        subst hl
        exact ih hr
    | false =>
      rw [hu] at h
      cases hb : defaultBind k d entries with
      | error e =>
        rw [hb] at h
        simp [Bind.bind, Except.bind, Pure.pure, Except.pure] at h
      | ok l₁ =>
        rw [hb] at h
        cases hr : defaultPhase used cat entries with
        | error e =>
          rw [hr] at h
          simp [Bind.bind, Except.bind, Pure.pure, Except.pure] at h
        | ok ls =>
          rw [hr] at h
          have hl : l = l₁ ++ ls := by
            have := h
            simp [Bind.bind, Except.bind, Pure.pure, Except.pure] at this
            exact this.symm
          subst hl
          intro c hc
          rcases List.mem_append.mp hc with hc1 | hc2
          · rw [defaultBind_fields hb c hc1]
            exact hu
          · exact ih hr c hc2

theorem get_filters_split {plugins : List PluginClass} {entries : List (String × Value)}
    {result : List Filter}
    (h : get_filters plugins (some entries) = .ok result) :
    ∃ loaded defs, result = loaded ++ defs ∧
      pluginPhase plugins entries = .ok loaded ∧
      defaultPhase (loaded.map Filter.field) filterFieldsList entries = .ok defs := by
  cases hl : pluginPhase plugins entries with
  | error e =>
    have hcalc : get_filters plugins (some entries) = .error e := by
      simp [get_filters, hl, Bind.bind, Except.bind]
    rw [h] at hcalc
    exact absurd hcalc (by simp)
  | ok loaded =>
    cases hd : defaultPhase (loaded.map Filter.field) filterFieldsList entries with
    | error e =>
      have hcalc : get_filters plugins (some entries) = .error e := by
        simp [get_filters, hl, hd, Bind.bind, Except.bind]
      rw [h] at hcalc
      exact absurd hcalc (by simp)
    | ok defs =>
      have hcalc : get_filters plugins (some entries) = .ok (loaded ++ defs) := by
        simp [get_filters, hl, hd, Bind.bind, Except.bind, Pure.pure, Except.pure]
      rw [h] at hcalc
      injection hcalc with h1
      exact ⟨loaded, defs, h1, rfl, hd⟩

/-- C3: in configuration-bound mode the result is the plugin-bound filters
followed by the default-bound ones, every default-bound filter has a field
no plugin binding used, and the concrete precedence example produces
exactly the two plugin-bound filters and no default `created_utc` filter. -/
theorem c3_plugin_precedence :
    (∀ (plugins : List PluginClass) (entries : List (String × Value)) (result : List Filter),
      get_filters plugins (some entries) = .ok result →
      ∃ loaded defs, result = loaded ++ defs ∧
        pluginPhase plugins entries = .ok loaded ∧
        (∀ c ∈ defs, ∀ c' ∈ loaded, c.field ≠ c'.field)) ∧
    get_filters [createdUtcPlugin] (some cfgC3) =
      .ok [⟨"created_utc", some .MINIMUM, some (.cInt 0),
              "Specialized created_utc filter", true⟩,
           ⟨"created_utc", some .MAXIMUM, some (.cInt 100),
              "Specialized created_utc filter", true⟩] := by
  constructor
  · intro plugins entries result h
    obtain ⟨loaded, defs, hres, hl, hd⟩ := get_filters_split h
    refine ⟨loaded, defs, hres, hl, ?_⟩
    intro c hc c' hc' heq
    have hnc := defaultPhase_fields hd c hc
    have hmem : c.field ∈ loaded.map Filter.field := by
      rw [heq]
      exact List.mem_map_of_mem Filter.field hc'
    rw [List.contains_eq_any_beq] at hnc
    have : (loaded.map Filter.field).any (c.field == ·) = true := by
      rw [List.any_eq_true]
      exact ⟨c.field, hmem, by simp⟩
    rw [this] at hnc
    exact absurd hnc (by simp)
  · decide

/-- C3 witness: the general decomposition applied to the concrete
precedence example. -/
theorem c3_witness :
    ∃ loaded defs,
      ([⟨"created_utc", some .MINIMUM, some (.cInt 0),
           "Specialized created_utc filter", true⟩,
        ⟨"created_utc", some .MAXIMUM, some (.cInt 100),
           "Specialized created_utc filter", true⟩] : List Filter) = loaded ++ defs ∧
        pluginPhase [createdUtcPlugin] cfgC3 = .ok loaded ∧
        (∀ c ∈ defs, ∀ c' ∈ loaded, c.field ≠ c'.field) :=
  c3_plugin_precedence.1 [createdUtcPlugin] cfgC3 _ c3_plugin_precedence.2

/-! ### Dropping an entry that matches no field -/

theorem pluginBind_skip {p : PluginClass} {k : String} {v : Value}
    (h : substrB p.pfield k = false) (d₁ d₂ : List (String × Value)) :
    pluginBind p (d₁ ++ (k, v) :: d₂) = pluginBind p (d₁ ++ d₂) := by
  have h1 : ∀ (k₁ : String) (v₁ : Value) rest, pluginBind p ((k₁, v₁) :: rest) = do
      let (b, c) ← from_obj_conv p.pconv (instantiate p) k₁ v₁
      let others ← pluginBind p rest
      return (if b then c :: others else others) := fun _ _ _ => rfl
  induction d₁ with
  | nil =>
    show pluginBind p ((k, v) :: d₂) = pluginBind p d₂
    rw [h1, from_obj_not_applicable p.pconv v h]
    cases hr : pluginBind p d₂ <;>
      simp [Bind.bind, Except.bind, Pure.pure, Except.pure]
  | cons e d₁ ih =>
    obtain ⟨k₁, v₁⟩ := e
    show pluginBind p ((k₁, v₁) :: (d₁ ++ (k, v) :: d₂)) =
      pluginBind p ((k₁, v₁) :: (d₁ ++ d₂))
    rw [h1, h1, ih]

theorem pluginPhase_skip {plugins : List PluginClass} {k : String} {v : Value}
    (h : ∀ p ∈ plugins, substrB p.pfield k = false) (d₁ d₂ : List (String × Value)) :
    pluginPhase plugins (d₁ ++ (k, v) :: d₂) = pluginPhase plugins (d₁ ++ d₂) := by
  induction plugins with
  | nil => rfl
  | cons p ps ih =>
    show pluginPhase (p :: ps) _ = pluginPhase (p :: ps) _
    unfold pluginPhase
    rw [pluginBind_skip (h p (by simp)) d₁ d₂,
      ih (fun q hq => h q (by simp [hq]))]

theorem defaultBind_skip {kf d k : String} {v : Value}
    (h : substrB kf k = false) (d₁ d₂ : List (String × Value)) :
    defaultBind kf d (d₁ ++ (k, v) :: d₂) = defaultBind kf d (d₁ ++ d₂) := by
  have h1 : ∀ (k₁ : String) (v₁ : Value) rest, defaultBind kf d ((k₁, v₁) :: rest) = do
      let (b, c) ← Filter.from_obj (mkDefault kf d) k₁ v₁
      let others ← defaultBind kf d rest
      return (if b then c :: others else others) := fun _ _ _ => rfl
  induction d₁ with
  | nil =>
    show defaultBind kf d ((k, v) :: d₂) = defaultBind kf d d₂
    rw [h1, show Filter.from_obj (mkDefault kf d) k v = .ok (false, mkDefault kf d) from
      from_obj_not_applicable (fun v => v) v h]
    cases hr : defaultBind kf d d₂ <;>
      simp [Bind.bind, Except.bind, Pure.pure, Except.pure]
  | cons e d₁ ih =>
    obtain ⟨k₁, v₁⟩ := e
    show defaultBind kf d ((k₁, v₁) :: (d₁ ++ (k, v) :: d₂)) =
      defaultBind kf d ((k₁, v₁) :: (d₁ ++ d₂))
    rw [h1, h1, ih]

theorem defaultPhase_skip (used : List String) {cat : List (String × String)}
    {k : String} {v : Value}
    (h : ∀ kd ∈ cat, substrB kd.1 k = false) (d₁ d₂ : List (String × Value)) :
    defaultPhase used cat (d₁ ++ (k, v) :: d₂) = defaultPhase used cat (d₁ ++ d₂) := by
  induction cat with
  | nil => rfl
  | cons e cat ih =>
    obtain ⟨kf, d⟩ := e
    show defaultPhase used ((kf, d) :: cat) _ = defaultPhase used ((kf, d) :: cat) _
    unfold defaultPhase
    rw [ih (fun q hq => h q (by simp [hq]))]
    cases hu : used.contains kf with
    | true => rfl
    | false => rw [defaultBind_skip (h (kf, d) (by simp)) d₁ d₂]

/-- C9: a configuration entry whose key contains no plugin field and no
default-catalog field as a substring contributes nothing: `get_filters`
returns exactly what it returns without that entry, binding no filter and
raising no error for it. -/
theorem c9_unknown_key_dropped :
    ∀ (plugins : List PluginClass) (d₁ d₂ : List (String × Value)) (k : String) (v : Value),
      (∀ p ∈ plugins, substrB p.pfield k = false) →
      (∀ kd ∈ filterFieldsList, substrB kd.1 k = false) →
      get_filters plugins (some (d₁ ++ (k, v) :: d₂)) =
        get_filters plugins (some (d₁ ++ d₂)) := by
  intro plugins d₁ d₂ k v hp hd
  show (do
      let loaded ← pluginPhase plugins (d₁ ++ (k, v) :: d₂)
      let defs ← defaultPhase (loaded.map Filter.field) filterFieldsList (d₁ ++ (k, v) :: d₂)
      pure (loaded ++ defs)) =
    (do
      let loaded ← pluginPhase plugins (d₁ ++ d₂)
      let defs ← defaultPhase (loaded.map Filter.field) filterFieldsList (d₁ ++ d₂)
      pure (loaded ++ defs))
  rw [pluginPhase_skip hp d₁ d₂]
  cases hl : pluginPhase plugins (d₁ ++ d₂) with
  | error e => rfl
  | ok loaded =>
    simp only [Bind.bind, Except.bind]
    rw [defaultPhase_skip (loaded.map Filter.field) hd d₁ d₂]

/-- C9 witness: the key `zzz` matches no field, so the entry is silently
dropped. -/
theorem c9_witness :
    get_filters [createdUtcPlugin] (some [("zzz", .vInt 1)]) =
      get_filters [createdUtcPlugin] (some []) :=
  c9_unknown_key_dropped [createdUtcPlugin] [] [] "zzz" (.vInt 1)
    (by decide) (by decide)

end RD
